import Mathlib

/-!
Shallow embedding of `pkg/providers/v1/zones.go`: a lazily populated,
mutex-protected cache mapping availability-zone names to their details,
backed by a single `DescribeAvailabilityZones` remote call.

The Go `map[string]zoneDetails` is modelled as an association list in which
insertion prepends and lookup returns the leftmost match; this preserves the
only map operations the source uses (lookup, insert-or-overwrite, and the
`len == 0` emptiness test, since a nonempty association list always has a
findable key). The mutex itself is not part of the sequential embedding, but
lock acquisition/release and the remote directory call are recorded as an
event trace so that claims about "the directory is not invoked" and "the lock
is not acquired" can be stated.
-/

namespace ZonesGo

/-- Mirrors `zoneDetails` in zones.go: name, id and zoneType of a zone. -/
structure zoneDetails where
  name : String
  id : String
  zoneType : String
deriving DecidableEq, Repr

/-- The fields of `ec2.AvailabilityZone` that `populate` reads. In the Go SDK
these are `*string`, so they are `Option String` here. -/
structure AvailabilityZone where
  zoneName : Option String
  zoneId : Option String
  zoneType : Option String
deriving DecidableEq, Repr

/-- Mirrors `aws.StringValue`: dereference a `*string`, with `nil` giving `""`. -/
def stringValue : Option String → String
  | some s => s
  | none => ""

/-- The cache's `zoneNameToDetails` map, as an association list (leftmost match
wins on lookup, so prepending is insert-or-overwrite). -/
abbrev ZoneMap := List (String × zoneDetails)

/-- Lookup in the modelled Go map: first entry whose key equals `k`. -/
def zmFind (m : ZoneMap) (k : String) : Option zoneDetails :=
  match m with
  | [] => none
  | (k', v) :: rest => if k' = k then some v else zmFind rest k

/-- Insert-or-overwrite in the modelled Go map (`m[k] = v`). -/
def zmInsert (m : ZoneMap) (k : String) (v : zoneDetails) : ZoneMap :=
  (k, v) :: m

/-- The error produced by `populate` when the directory call fails: the Go code
wraps the underlying error as
`fmt.Errorf("error describe availability zones: %q", err)`, i.e. an error that
identifies the operation and carries the inner failure. -/
inductive PopulateError where
  | describeAvailabilityZones (inner : String)
deriving DecidableEq, Repr

/-- Body of the `for _, zone := range zones` loop in `populate`: store the
zone's details under its (dereferenced) name. -/
def popStep (acc : ZoneMap) (zone : AvailabilityZone) : ZoneMap :=
  zmInsert acc (stringValue zone.zoneName)
    { name := stringValue zone.zoneName
      id := stringValue zone.zoneId
      zoneType := stringValue zone.zoneType }

/-- Mirrors `populate` in zones.go. The directory collaborator
(`z.cloud.ec2.DescribeAvailabilityZones`) is passed in as its outcome `dir`:
either the listed zones or a failure. On failure the wrapped error is returned
and no map is produced; on success every listed zone is inserted (overwriting
by name) into the existing map. The Go "initialize the map if it's unset" step
is a no-op under value semantics (the empty association list is already a
usable empty map). -/
def populate (dir : Except String (List AvailabilityZone)) (m : ZoneMap) :
    Except PopulateError ZoneMap :=
  match dir with
  | Except.error e => Except.error (PopulateError.describeAvailabilityZones e)
  | Except.ok zones => Except.ok (zones.foldl popStep m)

/-- Mirrors `shouldPopulateCache` in zones.go: populate when the map is empty,
or when some requested zone name is not in the map. -/
def shouldPopulateCache (m : ZoneMap) (zoneNames : List String) : Bool :=
  if m.isEmpty then
    true
  else
    zoneNames.any fun zone => (zmFind m zone).isNone

/-- Observable events of one `getZoneDetailsByNames` call: acquiring/releasing
`z.mutex` and invoking the remote directory (inside `populate`). -/
inductive Event where
  | lockAcquire
  | lockRelease
  | directoryCall
deriving DecidableEq, Repr

/-- Outcome of one `getZoneDetailsByNames` call: the returned
`(map, error)` pair, the cache contents after the call, and the event trace. -/
structure LookupOutcome where
  result : Except PopulateError ZoneMap
  entries : ZoneMap
  trace : List Event
deriving Repr

/-- Body of the `for _, zone := range zoneNames` result-building loop in
`getZoneDetailsByNames`: copy the entry when present, skip (with only a
warning log) when absent. -/
def buildStep (m : ZoneMap) (acc : ZoneMap) (zone : String) : ZoneMap :=
  match zmFind m zone with
  | some d => zmInsert acc zone d
  | none => acc

/-- The `requestedZoneDetails` map built by `getZoneDetailsByNames`. -/
def buildResult (m : ZoneMap) (zoneNames : List String) : ZoneMap :=
  zoneNames.foldl (buildStep m) []

/-- Mirrors `getZoneDetailsByNames` in zones.go. Empty input returns an empty
map before taking the lock. Otherwise, under the lock, the cache is populated
when `shouldPopulateCache` says so — a populate failure aborts the call with
that error and the cache unchanged — and the requested entries are then copied
out of the cache. -/
def getZoneDetailsByNames (dir : Except String (List AvailabilityZone))
    (m : ZoneMap) (zoneNames : List String) : LookupOutcome :=
  if zoneNames.isEmpty then
    { result := Except.ok [], entries := m, trace := [] }
  else if shouldPopulateCache m zoneNames then
    match populate dir m with
    | Except.error e =>
        { result := Except.error e
          entries := m
          trace := [Event.lockAcquire, Event.directoryCall, Event.lockRelease] }
    | Except.ok populated =>
        { result := Except.ok (buildResult populated zoneNames)
          entries := populated
          trace := [Event.lockAcquire, Event.directoryCall, Event.lockRelease] }
  else
    { result := Except.ok (buildResult m zoneNames)
      entries := m
      trace := [Event.lockAcquire, Event.lockRelease] }

/-- The map holding exactly the records of one directory listing (the result
of populating an empty cache with that listing). -/
def listingMap (zones : List AvailabilityZone) : ZoneMap :=
  match populate (Except.ok zones) [] with
  | Except.ok m => m
  | Except.error _ => []

/-- Abstraction of the cache state for the spec's state machine: `Empty` when
no entry is present, `Populated` otherwise. -/
inductive CacheState where
  | Empty
  | Populated
deriving DecidableEq, Repr

/-- State abstraction: the cache is `Populated` exactly when the map is
nonempty. -/
def abstractState (m : ZoneMap) : CacheState :=
  if m.isEmpty then CacheState.Empty else CacheState.Populated

/-- Key–name consistency: every stored record's `name` field equals its key. -/
def goodMapB (m : ZoneMap) : Bool :=
  m.all fun p => p.2.name == p.1

theorem zmFind_insert (m : ZoneMap) (k : String) (v : zoneDetails) (q : String) :
    zmFind (zmInsert m k v) q = if k = q then some v else zmFind m q := rfl

theorem zmFind_append (a b : ZoneMap) (k : String) :
    zmFind (a ++ b) k =
      match zmFind a k with
      | some v => some v
      | none => zmFind b k := by
  induction a with
  | nil => simp [zmFind]
  | cons p rest ih =>
    obtain ⟨q, v⟩ := p
    by_cases h : q = k
    · simp [zmFind, h]
    · simp [zmFind, h, ih]

theorem popFoldl_append (zs : List AvailabilityZone) :
    ∀ acc : ZoneMap, List.foldl popStep acc zs = List.foldl popStep [] zs ++ acc := by
  induction zs with
  | nil => intro acc; simp
  | cons z zs ih =>
    intro acc
    simp only [List.foldl_cons]
    rw [ih (popStep acc z), ih (popStep [] z)]
    simp [popStep, zmInsert]

theorem populate_ok_eq (zones : List AvailabilityZone) (m : ZoneMap) :
    populate (Except.ok zones) m = Except.ok (listingMap zones ++ m) := by
  simp only [populate, listingMap, Except.ok.injEq]
  exact popFoldl_append zones m

/-- Characterization of a successful population: the new cache answers with
the listing's record when the listing covers the name, and with the old
cache's record otherwise. -/
theorem populate_find (zones : List AvailabilityZone) (m m' : ZoneMap)
    (h : populate (Except.ok zones) m = Except.ok m') (k : String) :
    zmFind m' k =
      match zmFind (listingMap zones) k with
      | some v => some v
      | none => zmFind m k := by
  rw [populate_ok_eq] at h
  cases h
  exact zmFind_append (listingMap zones) m k

theorem popFoldl_find_none (k : String) :
    ∀ (zs : List AvailabilityZone) (acc : ZoneMap),
      (∀ zone ∈ zs, stringValue zone.zoneName ≠ k) → zmFind acc k = none →
      zmFind (List.foldl popStep acc zs) k = none := by
  intro zs
  induction zs with
  | nil => intro acc _ hacc; exact hacc
  | cons z zs ih =>
    intro acc hzs hacc
    simp only [List.foldl_cons]
    refine ih (popStep acc z) (fun zone hz => hzs zone (List.mem_cons_of_mem z hz)) ?_
    rw [popStep, zmFind_insert, if_neg (hzs z (List.mem_cons_self z zs)), hacc]

theorem listingMap_find_none (zones : List AvailabilityZone) (k : String)
    (h : ∀ zone ∈ zones, stringValue zone.zoneName ≠ k) :
    zmFind (listingMap zones) k = none :=
  popFoldl_find_none k zones [] h rfl

theorem buildFoldl_find (m : ZoneMap) (k : String) :
    ∀ (names : List String) (acc : ZoneMap),
      zmFind (List.foldl (buildStep m) acc names) k =
        if k ∈ names ∧ (zmFind m k).isSome then zmFind m k
        else zmFind acc k := by
  intro names
  induction names with
  | nil =>
    intro acc
    have h1 : ¬(k ∈ ([] : List String) ∧ (zmFind m k).isSome = true) := by
      rintro ⟨h, -⟩
      exact List.not_mem_nil k h
    rw [List.foldl_nil, if_neg h1]
  | cons n ns ih =>
    intro acc
    rw [List.foldl_cons, ih (buildStep m acc n)]
    by_cases hs : (zmFind m k).isSome = true
    · by_cases hc : k ∈ ns
      · rw [if_pos ⟨hc, hs⟩, if_pos ⟨List.mem_cons_of_mem n hc, hs⟩]
      · have h1 : ¬(k ∈ ns ∧ (zmFind m k).isSome = true) := fun h => hc h.1
        rw [if_neg h1]
        by_cases hnk : n = k
        · subst hnk
          obtain ⟨d, hd⟩ := Option.isSome_iff_exists.mp hs
          rw [if_pos ⟨List.mem_cons_self _ _, hs⟩, buildStep, hd, zmFind_insert,
            if_pos rfl]
        · have h2 : ¬(k ∈ n :: ns ∧ (zmFind m k).isSome = true) := by
            rintro ⟨hmem, -⟩
            rcases List.mem_cons.mp hmem with h | h
            · exact hnk h.symm
            · exact hc h
          rw [if_neg h2]
          cases hd : zmFind m n with
          | none => rw [buildStep, hd]
          | some d => rw [buildStep, hd, zmFind_insert, if_neg hnk]
    · have h1 : ¬(k ∈ ns ∧ (zmFind m k).isSome = true) := fun h => hs h.2
      have h2 : ¬(k ∈ n :: ns ∧ (zmFind m k).isSome = true) := fun h => hs h.2
      rw [if_neg h1, if_neg h2]
      cases hd : zmFind m n with
      | none => rw [buildStep, hd]
      | some d =>
        rw [buildStep, hd, zmFind_insert, if_neg]
        intro hnk
        subst hnk
        rw [hd] at hs
        exact hs rfl

/-- Characterization of the returned mapping: it answers exactly for the
requested names that the cache knows, and for nothing else. -/
theorem buildResult_find (m : ZoneMap) (names : List String) (k : String) :
    zmFind (buildResult m names) k = if k ∈ names then zmFind m k else none := by
  rw [buildResult, buildFoldl_find m k names []]
  by_cases hc : k ∈ names
  · by_cases hs : (zmFind m k).isSome
    · simp [hc, hs]
    · rw [Option.not_isSome_iff_eq_none] at hs
      simp [hc, hs, zmFind]
  · simp [hc, zmFind]

theorem bool_eq_false {b : Bool} (h : ¬b = true) : b = false := by
  cases b
  · rfl
  · exact absurd rfl h

theorem goodMapB_find (m : ZoneMap) :
    goodMapB m = true →
      ∀ (k : String) (v : zoneDetails), zmFind m k = some v → v.name = k := by
  induction m with
  | nil => intro _ k v hf; simp [zmFind] at hf
  | cons p rest ih =>
    intro h k v hf
    obtain ⟨q, w⟩ := p
    simp only [goodMapB, List.all_cons, Bool.and_eq_true, beq_iff_eq] at h
    obtain ⟨h1, h2⟩ := h
    rw [zmFind] at hf
    by_cases hk : q = k
    · rw [if_pos hk] at hf
      cases hf
      rw [← hk]
      exact h1
    · rw [if_neg hk] at hf
      exact ih h2 k v hf

theorem goodMapB_insert (m : ZoneMap) (k : String) (v : zoneDetails)
    (h : goodMapB m = true) (hv : v.name = k) : goodMapB (zmInsert m k v) = true := by
  simp only [goodMapB, zmInsert, List.all_cons, Bool.and_eq_true, beq_iff_eq]
  exact ⟨hv, h⟩

theorem goodMapB_popFoldl (zs : List AvailabilityZone) :
    ∀ m : ZoneMap, goodMapB m = true → goodMapB (List.foldl popStep m zs) = true := by
  induction zs with
  | nil => intro m h; exact h
  | cons z zs ih =>
    intro m h
    simp only [List.foldl_cons, popStep]
    exact ih _ (goodMapB_insert m _ _ h rfl)

theorem goodMapB_buildFoldl (m : ZoneMap) (hm : goodMapB m = true) (names : List String) :
    ∀ acc : ZoneMap, goodMapB acc = true →
      goodMapB (List.foldl (buildStep m) acc names) = true := by
  induction names with
  | nil => intro acc h; exact h
  | cons n ns ih =>
    intro acc h
    rw [List.foldl_cons]
    refine ih _ ?_
    cases hd : zmFind m n with
    | none => simp only [buildStep, hd]; exact h
    | some d =>
      simp only [buildStep, hd]
      exact goodMapB_insert acc n d h (goodMapB_find m hm n d hd)

theorem goodMapB_buildResult (m : ZoneMap) (hm : goodMapB m = true)
    (names : List String) : goodMapB (buildResult m names) = true :=
  goodMapB_buildFoldl m hm names [] rfl

theorem popFoldl_length (zs : List AvailabilityZone) :
    ∀ acc : ZoneMap, (List.foldl popStep acc zs).length = acc.length + zs.length := by
  induction zs with
  | nil => intro acc; simp
  | cons z zs ih =>
    intro acc
    rw [List.foldl_cons, ih]
    simp only [popStep, zmInsert, List.length_cons]
    omega

theorem populate_ok_length (zones : List AvailabilityZone) (m m' : ZoneMap)
    (h : populate (Except.ok zones) m = Except.ok m') :
    m'.length = m.length + zones.length := by
  rw [populate] at h
  cases h
  exact popFoldl_length zones m

theorem abstractState_of_ne_nil (m : ZoneMap) (h : m ≠ []) :
    abstractState m = CacheState.Populated := by
  rw [abstractState, if_neg]
  intro hi
  exact h (List.isEmpty_iff.mp hi)

theorem lookup_eq_pop_ok (dir : Except String (List AvailabilityZone)) (m : ZoneMap)
    (names : List String) (hne : names.isEmpty = false)
    (hp : shouldPopulateCache m names = true) (m' : ZoneMap)
    (hpop : populate dir m = Except.ok m') :
    getZoneDetailsByNames dir m names =
      { result := Except.ok (buildResult m' names)
        entries := m'
        trace := [Event.lockAcquire, Event.directoryCall, Event.lockRelease] } := by
  rw [getZoneDetailsByNames, if_neg (by rw [hne]; exact Bool.false_ne_true), if_pos hp, hpop]

theorem lookup_eq_pop_err (dir : Except String (List AvailabilityZone)) (m : ZoneMap)
    (names : List String) (hne : names.isEmpty = false)
    (hp : shouldPopulateCache m names = true) (e : PopulateError)
    (hpop : populate dir m = Except.error e) :
    getZoneDetailsByNames dir m names =
      { result := Except.error e
        entries := m
        trace := [Event.lockAcquire, Event.directoryCall, Event.lockRelease] } := by
  rw [getZoneDetailsByNames, if_neg (by rw [hne]; exact Bool.false_ne_true), if_pos hp, hpop]

theorem lookup_eq_hit (dir : Except String (List AvailabilityZone)) (m : ZoneMap)
    (names : List String) (hne : names.isEmpty = false)
    (hp : shouldPopulateCache m names = false) :
    getZoneDetailsByNames dir m names =
      { result := Except.ok (buildResult m names)
        entries := m
        trace := [Event.lockAcquire, Event.lockRelease] } := by
  rw [getZoneDetailsByNames, if_neg (by rw [hne]; exact Bool.false_ne_true),
    if_neg (by rw [hp]; exact Bool.false_ne_true)]

/-- Sample availability zone "A" for concrete evaluations. -/
def azA : AvailabilityZone :=
  { zoneName := some "A", zoneId := some "idA", zoneType := some "tA" }

/-- Sample availability zone "B" for concrete evaluations. -/
def azB : AvailabilityZone :=
  { zoneName := some "B", zoneId := some "idB", zoneType := some "tB" }

/-- The cache record of zone "A". -/
def recA : zoneDetails := { name := "A", id := "idA", zoneType := "tA" }

/-- The cache record of zone "B". -/
def recB : zoneDetails := { name := "B", id := "idB", zoneType := "tB" }

/-- C1: for every non-empty input, when `getZoneDetailsByNames` succeeds, the
returned mapping contains exactly the requested names present in the cache
after any population (each mapped to its record); requested names absent from
the cache are omitted and never cause a failure (the call can only fail
through a failed populate, so with a successful directory it always
succeeds). -/
theorem getZoneDetailsByNames_ok_spec (dir : Except String (List AvailabilityZone))
    (m : ZoneMap) (names : List String) (hne : names ≠ []) :
    (∀ r, (getZoneDetailsByNames dir m names).result = Except.ok r →
      ∀ k, zmFind r k =
        if k ∈ names then zmFind (getZoneDetailsByNames dir m names).entries k
        else none) ∧
    (∀ zones, dir = Except.ok zones →
      ∃ r, (getZoneDetailsByNames dir m names).result = Except.ok r) := by
  have hni : names.isEmpty = false := by
    cases names with
    | nil => exact absurd rfl hne
    | cons a l => rfl
  constructor
  · intro r hr k
    by_cases hp : shouldPopulateCache m names = true
    · cases hpop : populate dir m with
      | error e =>
        rw [lookup_eq_pop_err dir m names hni hp e hpop] at hr
        exact Except.noConfusion hr
      | ok m' =>
        rw [lookup_eq_pop_ok dir m names hni hp m' hpop] at hr ⊢
        injection hr with h
        rw [← h, buildResult_find]
    · have hpf := bool_eq_false hp
      rw [lookup_eq_hit dir m names hni hpf] at hr ⊢
      injection hr with h
      rw [← h, buildResult_find]
  · intro zones hdir
    subst hdir
    by_cases hp : shouldPopulateCache m names = true
    · exact ⟨buildResult (listingMap zones ++ m) names, by
        rw [lookup_eq_pop_ok _ m names hni hp _ (populate_ok_eq zones m)]⟩
    · exact ⟨buildResult m names, by
        rw [lookup_eq_hit _ m names hni (bool_eq_false hp)]⟩

theorem getZoneDetailsByNames_ok_spec_witness :
    zmFind [("A", recA)] "A" =
      if "A" ∈ (["A", "Z"] : List String) then
        zmFind (getZoneDetailsByNames (Except.ok [azA]) [] ["A", "Z"]).entries "A"
      else none :=
  (getZoneDetailsByNames_ok_spec (Except.ok [azA]) [] ["A", "Z"]
    (by decide)).1 [("A", recA)] rfl "A"

/-- C2: when population is required and the directory call fails, the lookup
fails with the wrapped directory error, returns no mapping, and leaves the
cache exactly as it was. -/
theorem getZoneDetailsByNames_populate_error (e : String) (m : ZoneMap)
    (names : List String) (hne : names ≠ [])
    (hp : shouldPopulateCache m names = true) :
    (getZoneDetailsByNames (Except.error e) m names).result =
        Except.error (PopulateError.describeAvailabilityZones e) ∧
      (getZoneDetailsByNames (Except.error e) m names).entries = m := by
  have hni : names.isEmpty = false := by
    cases names with
    | nil => exact absurd rfl hne
    | cons a l => rfl
  rw [lookup_eq_pop_err (Except.error e) m names hni hp
    (PopulateError.describeAvailabilityZones e) rfl]
  exact ⟨rfl, rfl⟩

theorem getZoneDetailsByNames_populate_error_witness :
    (getZoneDetailsByNames (Except.error "boom") [] ["A"]).result =
        Except.error (PopulateError.describeAvailabilityZones "boom") ∧
      (getZoneDetailsByNames (Except.error "boom") [] ["A"]).entries = [] :=
  getZoneDetailsByNames_populate_error "boom" [] ["A"] (by decide) rfl

/-- C3: a successful populate never removes entries — every name present
before is still present after, and names absent from the new listing keep
their exact previous record. -/
theorem populate_preserves_entries (zones : List AvailabilityZone) (m m' : ZoneMap)
    (h : populate (Except.ok zones) m = Except.ok m') :
    (∀ k v, zmFind m k = some v → (zmFind m' k).isSome = true) ∧
    (∀ k, (∀ zone ∈ zones, stringValue zone.zoneName ≠ k) →
      zmFind m' k = zmFind m k) := by
  constructor
  · intro k v hk
    rw [populate_find zones m m' h k]
    cases hl : zmFind (listingMap zones) k with
    | none =>
      rw [hk]
      rfl
    | some d => rfl
  · intro k hk
    rw [populate_find zones m m' h k, listingMap_find_none zones k hk]

theorem populate_preserves_entries_witness :
    ((zmFind [("A", recA), ("B", recB)] "B").isSome = true) ∧
      zmFind [("A", recA), ("B", recB)] "B" = zmFind [("B", recB)] "B" := by
  have h := populate_preserves_entries [azA] [("B", recB)]
    [("A", recA), ("B", recB)] rfl
  exact ⟨h.1 "B" recB rfl, h.2 "B" (by decide)⟩

/-- C4: `shouldPopulateCache` returns true exactly when the cache is empty or
some requested name is absent from the cache; it returns false only when
every requested name is present. -/
theorem shouldPopulateCache_spec (m : ZoneMap) (zoneNames : List String) :
    shouldPopulateCache m zoneNames = true ↔
      (m = [] ∨ ∃ k ∈ zoneNames, zmFind m k = none) := by
  rw [shouldPopulateCache]
  by_cases hm : m.isEmpty = true
  · rw [if_pos hm]
    have hmn : m = [] := List.isEmpty_iff.mp hm
    simp [hmn]
  · rw [if_neg hm]
    have hmn : ¬m = [] := fun h => hm (by rw [h]; rfl)
    simp [List.any_eq_true, Option.isNone_iff_eq_none, hmn]

/-- C6: the empty input returns an empty mapping at once, for any cache state
and any directory behaviour (so the directory is never consulted), with the
cache unchanged and an empty event trace (no lock acquisition, no directory
call). -/
theorem getZoneDetailsByNames_empty_input (dir : Except String (List AvailabilityZone))
    (m : ZoneMap) :
    getZoneDetailsByNames dir m [] =
      { result := Except.ok [], entries := m, trace := [] } := rfl

/-- C7: a non-empty lookup whose names are all cached does not call the
directory (no `directoryCall` event) and leaves the cache unchanged. -/
theorem getZoneDetailsByNames_cache_hit (dir : Except String (List AvailabilityZone))
    (m : ZoneMap) (names : List String) (hne : names ≠ [])
    (hall : ∀ k ∈ names, (zmFind m k).isSome = true) :
    (getZoneDetailsByNames dir m names).entries = m ∧
      Event.directoryCall ∉ (getZoneDetailsByNames dir m names).trace := by
  have hni : names.isEmpty = false := by
    cases names with
    | nil => exact absurd rfl hne
    | cons a l => rfl
  have hm : ¬m.isEmpty = true := by
    intro hmi
    have hmn : m = [] := List.isEmpty_iff.mp hmi
    cases names with
    | nil => exact hne rfl
    | cons a l =>
      have := hall a (List.mem_cons_self a l)
      rw [hmn] at this
      simp [zmFind] at this
  have hp : shouldPopulateCache m names = false := by
    rw [shouldPopulateCache, if_neg hm]
    rw [List.any_eq_false]
    intro k hk
    have := hall k hk
    cases hzf : zmFind m k with
    | none => rw [hzf] at this; simp at this
    | some d => simp [hzf]
  rw [lookup_eq_hit dir m names hni hp]
  refine ⟨rfl, ?_⟩
  show Event.directoryCall ∉ [Event.lockAcquire, Event.lockRelease]
  decide

theorem getZoneDetailsByNames_cache_hit_witness :
    (getZoneDetailsByNames (Except.error "x") [("A", recA)] ["A"]).entries =
        [("A", recA)] ∧
      Event.directoryCall ∉
        (getZoneDetailsByNames (Except.error "x") [("A", recA)] ["A"]).trace :=
  getZoneDetailsByNames_cache_hit (Except.error "x") [("A", recA)] ["A"]
    (by decide) (by decide)

/-- C10: key–name consistency — if every cached record's name equals its key,
then after any lookup the cache still satisfies this, and so does any
returned mapping. -/
theorem lookup_preserves_key_name_consistency
    (dir : Except String (List AvailabilityZone)) (m : ZoneMap)
    (names : List String) (hm : goodMapB m = true) :
    goodMapB (getZoneDetailsByNames dir m names).entries = true ∧
      ∀ r, (getZoneDetailsByNames dir m names).result = Except.ok r →
        goodMapB r = true := by
  by_cases hni : names.isEmpty = true
  · rw [getZoneDetailsByNames, if_pos hni]
    exact ⟨hm, fun r hr => by injection hr with h; rw [← h]; rfl⟩
  · have hnif := bool_eq_false hni
    by_cases hp : shouldPopulateCache m names = true
    · cases hpop : populate dir m with
      | error e =>
        rw [lookup_eq_pop_err dir m names hnif hp e hpop]
        exact ⟨hm, fun r hr => Except.noConfusion hr⟩
      | ok m' =>
        have hm' : goodMapB m' = true := by
          cases dir with
          | error e => exact Except.noConfusion hpop
          | ok zones =>
            rw [populate] at hpop
            cases hpop
            exact goodMapB_popFoldl zones m hm
        rw [lookup_eq_pop_ok dir m names hnif hp m' hpop]
        exact ⟨hm', fun r hr => by
          injection hr with h
          rw [← h]
          exact goodMapB_buildResult m' hm' names⟩
    · rw [lookup_eq_hit dir m names hnif (bool_eq_false hp)]
      exact ⟨hm, fun r hr => by
        injection hr with h
        rw [← h]
        exact goodMapB_buildResult m hm names⟩

theorem lookup_preserves_key_name_consistency_witness :
    goodMapB (getZoneDetailsByNames (Except.ok [azA]) [] ["A"]).entries = true ∧
      goodMapB [("A", recA)] = true := by
  have h := lookup_preserves_key_name_consistency (Except.ok [azA]) [] ["A"] rfl
  exact ⟨h.1, h.2 [("A", recA)] rfl⟩

/-- C5 counterexample: after a cache already holding A and B is repopulated
from a listing containing only A, the cache is neither empty nor equal (as a
lookup function) to the map of that most recent listing — it still answers
for B, which the listing does not. So "entries is empty or equals the result
of the most recent successful directory listing" fails on the code. -/
theorem populate_narrow_listing_cex :
    populate (Except.ok [azA, azB]) [] = Except.ok [("B", recB), ("A", recA)] ∧
      populate (Except.ok [azA]) [("B", recB), ("A", recA)] =
        Except.ok [("A", recA), ("B", recB), ("A", recA)] ∧
      ([("A", recA), ("B", recB), ("A", recA)] : ZoneMap) ≠ [] ∧
      zmFind [("A", recA), ("B", recB), ("A", recA)] "B" = some recB ∧
      zmFind (listingMap [azA]) "B" = none := by
  refine ⟨rfl, rfl, ?_, ?_, ?_⟩
  · intro h
    exact List.noConfusion h
  · decide
  · decide

/-- C5 (amended): after a successful populate, the cache is the union of the
most recent listing with the previous entries, the listing taking precedence
for names it contains; names absent from the listing keep their old records
(the listing is additive, not exhaustive). -/
theorem populate_union_of_listing (zones : List AvailabilityZone) (m m' : ZoneMap)
    (h : populate (Except.ok zones) m = Except.ok m') (k : String) :
    zmFind m' k =
      match zmFind (listingMap zones) k with
      | some v => some v
      | none => zmFind m k :=
  populate_find zones m m' h k

theorem populate_union_of_listing_witness :
    zmFind [("A", recA), ("B", recB)] "B" =
      match zmFind (listingMap [azA]) "B" with
      | some v => some v
      | none => zmFind [("B", recB)] "B" :=
  populate_union_of_listing [azA] [("B", recB)] [("A", recA), ("B", recB)] rfl "B"

/-- C8 counterexample: a successful populate from an empty directory listing
leaves an empty cache empty — the first successful populate does not always
transition Empty to Populated. -/
theorem populate_empty_listing_cex :
    populate (Except.ok ([] : List AvailabilityZone)) ([] : ZoneMap) =
        Except.ok ([] : ZoneMap) ∧
      abstractState ([] : ZoneMap) = CacheState.Empty ∧
      abstractState ([] : ZoneMap) ≠ CacheState.Populated :=
  ⟨rfl, rfl, by decide⟩

/-- C8 (amended): the state machine over {Empty, Populated} (Populated =
cache nonempty) satisfies: a successful populate whose listing is non-empty
takes Empty to Populated; a successful populate from Populated stays
Populated (never back to Empty); and a failed population (directory error)
leaves the cache, hence the state, unchanged for every lookup that triggers
it. -/
theorem populate_state_transitions (zones : List AvailabilityZone) (m m' : ZoneMap)
    (h : populate (Except.ok zones) m = Except.ok m') :
    (zones ≠ [] → abstractState m' = CacheState.Populated) ∧
      (abstractState m = CacheState.Populated →
        abstractState m' = CacheState.Populated) ∧
      (∀ (e : String) (names : List String),
        (getZoneDetailsByNames (Except.error e) m names).entries = m) := by
  have hlen := populate_ok_length zones m m' h
  refine ⟨?_, ?_, ?_⟩
  · intro hzne
    apply abstractState_of_ne_nil
    intro hnil
    rw [hnil] at hlen
    have hz : zones.length ≠ 0 := fun h0 => hzne (List.length_eq_zero.mp h0)
    simp at hlen
    omega
  · intro hm
    apply abstractState_of_ne_nil
    intro hnil
    rw [hnil] at hlen
    have hmn : m = [] := by
      have : m.length = 0 := by simp at hlen; omega
      exact List.length_eq_zero.mp this
    rw [hmn] at hm
    exact CacheState.noConfusion hm
  · intro e names
    by_cases hni : names.isEmpty = true
    · rw [getZoneDetailsByNames, if_pos hni]
    · have hnif := bool_eq_false hni
      by_cases hp : shouldPopulateCache m names = true
      · rw [lookup_eq_pop_err (Except.error e) m names hnif hp
          (PopulateError.describeAvailabilityZones e) rfl]
      · rw [lookup_eq_hit (Except.error e) m names hnif (bool_eq_false hp)]

theorem populate_state_transitions_witness :
    abstractState [("A", recA)] = CacheState.Populated ∧
      (getZoneDetailsByNames (Except.error "boom") [] ["B"]).entries = [] := by
  have h := populate_state_transitions [azA] [] [("A", recA)] rfl
  exact ⟨h.1 (by decide), h.2.2 "boom" ["B"]⟩

end ZonesGo
